import Mathlib

/-!
Verification development for the MCP-BOE repository core
(`src/mcp_boe/utils/http_client.py`, `src/mcp_boe/utils/warnings_handler.py`,
`src/mcp_boe/models/boe_models.py`, `src/mcp_boe/tools/legislation.py`).

The Python code is shallowly embedded: every definition below is a direct
translation of a function of the source (the doc comment of each definition
names the function and lines it embeds).  Machine reals of the source
(`confidence`, `retry_delay`) are modelled as rationals; `datetime.now()`
timestamps are not modelled (no claim mentions them); Python dictionaries are
modelled as insertion-ordered association lists with the CPython update
semantics (assigning to an existing key keeps its position).
-/

/-! ## Generic Python values

Model of the dynamically typed values the client passes around: the result of
`json.loads`, the output of `BOEHTTPClient._xml_to_dict`, and the payload of
`BOEHTTPClient.build_search_query`.  Floats never occur in the embedded code
paths and are not modelled. -/

/-- A Python value: `None`, `bool`, `int`, `str`, `list`, or an
insertion-ordered `dict` with string keys. -/
inductive PyVal where
  | none
  | bool (b : Bool)
  | int (n : Int)
  | str (s : String)
  | list (xs : List PyVal)
  | dict (entries : List (String × PyVal))

/-- CPython dict assignment `d[k] = v`: if `k` is already a key its value is
replaced in place (the key keeps its insertion position), otherwise the pair
is appended at the end. -/
def pyDictSet : List (String × PyVal) → String → PyVal → List (String × PyVal)
  | [], k, v => [(k, v)]
  | (k', v') :: rest, k, v =>
    if k' = k then (k, v) :: rest else (k', v') :: pyDictSet rest k v

/-- CPython `d.get(k)`: the value of the first (hence only) entry for `k`. -/
def pyDictGet : List (String × PyVal) → String → Option PyVal
  | [], _ => Option.none
  | (k', v') :: rest, k => if k' = k then some v' else pyDictGet rest k

/-- CPython `d.update(upd)`: assign every entry of `upd` into `d` in order. -/
def pyDictUpdate (d upd : List (String × PyVal)) : List (String × PyVal) :=
  upd.foldl (fun acc kv => pyDictSet acc kv.1 kv.2) d

/-! ## Python string primitives used by the embedded code -/

/-- Python `str.lower` restricted to its ASCII action (the only case the
claims exercise): `A`..`Z` map 32 code points up, every other character is
unchanged.  This is exactly `Char.toLower` of the Lean core library. -/
def pyLowerChar (c : Char) : Char := Char.toLower c

/-- Python `s.lower()` as a character-wise map (ASCII action, see
`pyLowerChar`). -/
def pyLower (s : String) : String := ⟨s.data.map pyLowerChar⟩

/-- Python `str.split()` with no separator: split on runs of whitespace and
drop empty pieces.  Whitespace is modelled by `Char.isWhitespace`
(space, tab, carriage return, newline — the whitespace the claims use).
The second argument accumulates the current word, reversed. -/
def pyWordsAux : List Char → List Char → List String
  | [], acc => if acc.isEmpty then [] else [⟨acc.reverse⟩]
  | c :: cs, acc =>
    if c.isWhitespace then
      if acc.isEmpty then pyWordsAux cs [] else ⟨acc.reverse⟩ :: pyWordsAux cs []
    else pyWordsAux cs (c :: acc)

/-- Python `s.split()` on a string. -/
def pyWords (s : String) : List String := pyWordsAux s.data []

/-- Membership test of Python `needle in hay` on lists of characters:
`needle` occurs contiguously inside `hay`. -/
def listInfix (needle : List Char) : List Char → Bool
  | [] => needle.isEmpty
  | c :: t => needle.isPrefixOf (c :: t) || listInfix needle t

/-- Python substring containment `needle in hay` for strings. -/
def pyInStr (needle hay : String) : Bool := listInfix needle.data hay.data

/-- Python `s.strip()`: remove leading and trailing whitespace. -/
def pyStrip (s : String) : String :=
  ⟨((s.data.dropWhile Char.isWhitespace).reverse.dropWhile Char.isWhitespace).reverse⟩

/-! ## The request executor: `BOEHTTPClient._make_request`
(`src/mcp_boe/utils/http_client.py`, lines 110–185)

One HTTP attempt is abstracted as a *backend*: a function from the 0-indexed
attempt number to its outcome.  `success` is a 2xx response (its body text);
`transient` is an `httpx.RequestError`/`TimeoutException` carrying `str(e)`;
`httpStatus` is the `HTTPStatusError` that `response.raise_for_status()`
raises on a non-2xx status, carrying the status code and `str(e)`. -/

/-- Outcome of one attempt of the retry loop. -/
inductive AttemptOutcome where
  | success (body : String)
  | transient (cause : String)
  | httpStatus (code : Nat) (excStr : String)
deriving DecidableEq

/-- Whether an outcome is caught by the `except (RequestError,
TimeoutException)` branch of `_make_request`. -/
def isTransientB : AttemptOutcome → Bool
  | .transient _ => true
  | _ => false

/-- The `APIError` pydantic model of `src/mcp_boe/models/boe_models.py`
(lines 468–473); the `timestamp` field (`datetime.now()`) is not modelled. -/
structure APIErrorM where
  codigo : Nat
  mensaje : String
  detalles : Option String
deriving DecidableEq

/-- The `APIError` raised at lines 180–185 of `http_client.py` when all
attempts failed transiently; `detalles = str(last_exception)` (the string
`"None"` if no attempt ran, which needs `max_retries < 0` and cannot happen
here). -/
def connectionError (lastExc : Option String) : APIErrorM :=
  ⟨500, "Error de conexión después de varios reintentos",
    some (match lastExc with | some s => s | Option.none => "None")⟩

/-- The `APIError` raised at lines 172–177 of `http_client.py` on an
`HTTPStatusError`. -/
def httpStatusAPIError (code : Nat) (excStr : String) : APIErrorM :=
  ⟨code, "Error HTTP " ++ toString code, some excStr⟩

/-- Observable events of one `_make_request` run: an attempt with its
outcome, or the `asyncio.sleep(retry_delay * (attempt + 1))` backoff of
line 167. -/
inductive RetryEvent where
  | att (i : Nat) (o : AttemptOutcome)
  | backoff (d : ℚ)

/-- Result of a `_make_request` run: the returned response body or the raised
`APIError`, together with the ordered trace of attempts and backoff sleeps. -/
structure RunResult where
  result : Except APIErrorM String
  trace : List RetryEvent

/-- The body of the `for attempt in range(self.max_retries + 1)` loop of
`_make_request` (lines 143–177), unrolled on the number of remaining loop
iterations.  `attempt` is the current loop index, `lastExc` the running
`last_exception`.  When the iterations are exhausted the `APIError` of
lines 180–185 is raised. -/
def makeRequestGo (backend : Nat → AttemptOutcome) (maxRetries : Nat)
    (retryDelay : ℚ) : Nat → Nat → Option String → RunResult
  | _, 0, lastExc => ⟨.error (connectionError lastExc), []⟩
  | attempt, remaining + 1, lastExc =>
    match backend attempt with
    | .success body => ⟨.ok body, [.att attempt (.success body)]⟩
    | .httpStatus code e =>
      ⟨.error (httpStatusAPIError code e), [.att attempt (.httpStatus code e)]⟩
    | .transient cause =>
      let rest := makeRequestGo backend maxRetries retryDelay
        (attempt + 1) remaining (some cause)
      ⟨rest.result,
        .att attempt (.transient cause) ::
          (if attempt < maxRetries then
            RetryEvent.backoff (retryDelay * ((attempt : ℚ) + 1)) :: rest.trace
          else rest.trace)⟩
  -- the `lastExc` of the transient branch is `some cause` exactly as
  -- `last_exception = e` at line 163; a non-transient outcome leaves the loop
  -- at once (`return response` at line 160, `raise APIError` at line 172).

/-- `BOEHTTPClient._make_request` with `max_retries = maxRetries` and
`retry_delay = retryDelay`, run against `backend`. -/
def makeRequest (backend : Nat → AttemptOutcome) (maxRetries : Nat)
    (retryDelay : ℚ) : RunResult :=
  makeRequestGo backend maxRetries retryDelay 0 (maxRetries + 1) Option.none

/-- Number of attempts recorded in a trace. -/
def countAtt (tr : List RetryEvent) : Nat :=
  (tr.filter fun e => match e with | .att _ _ => true | _ => false).length

/-- The backoff sleep durations of a trace, in order. -/
def sleepsOf (tr : List RetryEvent) : List ℚ :=
  tr.filterMap fun e => match e with | .backoff d => some d | _ => Option.none

/-! ## The result validator: `SearchResultValidator.validate_search_results`
(`src/mcp_boe/utils/warnings_handler.py`, lines 207–272) -/

/-- One search result as the validator reads it: a dict probed with
`result.get('titulo', '')` and `result.get('identificador', '')`; a missing
key is `Option.none`. -/
structure SearchResultRec where
  titulo : Option String
  identificador : Option String

/-- The validation dict built by `validate_search_results`
(`confidence` is a Python float, modelled as a rational). -/
structure ValidationInfo where
  search_text : String
  total_results : Nat
  matching_results : Nat
  confidence : ℚ
  likely_incorrect : Bool
  mismatched_titles : List String

/-- The inner loop test of lines 245–250: some search term occurs in the
lowercased title or the lowercased identifier. -/
def resultMatches (searchTerms : List String) (r : SearchResultRec) : Bool :=
  let title := pyLower (r.titulo.getD "")
  let ident := pyLower (r.identificador.getD "")
  searchTerms.any fun term => pyInStr term title || pyInStr term ident

/-- `SearchResultValidator.validate_search_results` (lines 207–272).
The `if not results: return validation` early exit of lines 233–234 returns
the initial dict — `confidence = 0.0` and `likely_incorrect = False`.
Otherwise the loop of lines 241–255 counts matches and collects
`result.get('titulo', 'Sin título')` of the non-matching results, and
lines 258–262 compute `confidence` and `likely_incorrect = confidence < 0.3`. -/
def validate_search_results (search_text : String)
    (results : List SearchResultRec) : ValidationInfo :=
  if results.isEmpty then
    ⟨search_text, results.length, 0, 0, false, []⟩
  else
    let searchTerms := pyWords (pyLower search_text)
    let matching := (results.filter (resultMatches searchTerms)).length
    let mismatched := (results.filter fun r => !resultMatches searchTerms r).map
      fun r => r.titulo.getD "Sin título"
    let total := results.length
    let conf : ℚ := if 0 < total then (matching : ℚ) / (total : ℚ) else 0
    ⟨search_text, total, matching, conf, decide (conf < 3 / 10), mismatched⟩

/-- Specification device for stating the shape of a `_make_request` trace:
the events attempt `i` contributes — the attempt itself, followed by one
backoff sleep of `retry_delay * (i + 1)` exactly when the attempt failed
transiently and `i < max_retries` (lines 162–167 of `http_client.py`). -/
def expectedRetryEvents (backend : Nat → AttemptOutcome) (maxRetries : Nat)
    (retryDelay : ℚ) (i : Nat) : List RetryEvent :=
  .att i (backend i) ::
    (if isTransientB (backend i) && decide (i < maxRetries) then
      [RetryEvent.backoff (retryDelay * ((i : ℚ) + 1))]
    else [])

/-! ## JSON serialization and parsing
(`json.dumps(..., ensure_ascii=False)` and `json.loads` of the CPython
standard library, as used by `BOEHTTPClient._parse_response` line 244 and
`BOEHTTPClient.build_search_query` line 499)

The serializer uses the default separators of `json.dumps` (a comma and a
space between items, a colon and a space after keys) and `ensure_ascii=False`
(as at line 499), escaping the quote, the backslash, the five short-named
control characters and the remaining control characters (as `\u00XX`).  The
parser follows the JSON grammar accepted by `json.loads` with two modelling
restrictions stated where they apply: float literals and lone surrogate
escapes are outside the modelled fragment. -/

/-- Escape of one character inside a JSON string literal, as emitted by
CPython `json.dumps` with `ensure_ascii=False`. -/
def escapeChar (c : Char) : List Char :=
  if c = '"' then ['\\', '"']
  else if c = '\\' then ['\\', '\\']
  else if c = '\n' then ['\\', 'n']
  else if c = '\t' then ['\\', 't']
  else if c = '\r' then ['\\', 'r']
  else if c = '\x08' then ['\\', 'b']
  else if c = '\x0c' then ['\\', 'f']
  else if c.toNat < 32 then
    ['\\', 'u', '0', '0', Nat.digitChar (c.toNat / 16),
      Nat.digitChar (c.toNat % 16)]
  else [c]

/-- Escape of a whole string body. -/
def escapeString (cs : List Char) : List Char := cs.flatMap escapeChar

/-- A JSON string literal: quote, escaped body, quote. -/
def dumpStr (s : String) : List Char := '"' :: (escapeString s.data ++ ['"'])

mutual

/-- CPython `json.dumps(v, ensure_ascii=False)` (character list). -/
def dumpVal : PyVal → List Char
  | .none => "null".data
  | .bool true => "true".data
  | .bool false => "false".data
  | .int n => (toString n).data
  | .str s => dumpStr s
  | .list xs => '[' :: (dumpItems xs ++ [']'])
  | .dict es => '\x7b' :: (dumpEntries es ++ ['\x7d'])

/-- List items joined by the default item separator of a comma and a space. -/
def dumpItems : List PyVal → List Char
  | [] => []
  | [x] => dumpVal x
  | x :: y :: xs => dumpVal x ++ ',' :: ' ' :: dumpItems (y :: xs)

/-- Dict entries joined by the default separators. -/
def dumpEntries : List (String × PyVal) → List Char
  | [] => []
  | [(k, v)] => dumpStr k ++ ':' :: ' ' :: dumpVal v
  | (k, v) :: e :: es =>
    dumpStr k ++ ':' :: ' ' :: dumpVal v ++ ',' :: ' ' :: dumpEntries (e :: es)

end

/-- CPython `json.dumps(v, ensure_ascii=False)`. -/
def jsonDumps (v : PyVal) : String := ⟨dumpVal v⟩

/-- Skip JSON whitespace (space, tab, newline, carriage return — exactly
`Char.isWhitespace`). -/
def skipWs : List Char → List Char
  | [] => []
  | c :: cs => if c.isWhitespace then skipWs cs else c :: cs

/-- Prepend a decoded character to the pending string-parse result. -/
def consStr (d : Char) (o : Option (List Char × List Char)) :
    Option (List Char × List Char) :=
  o.map fun p => (d :: p.1, p.2)

/-- Value of one hexadecimal digit. -/
def hexVal (c : Char) : Option Nat :=
  if '0' ≤ c ∧ c ≤ '9' then some (c.toNat - 48)
  else if 'a' ≤ c ∧ c ≤ 'f' then some (c.toNat - 87)
  else if 'A' ≤ c ∧ c ≤ 'F' then some (c.toNat - 55)
  else Option.none

/-- Value of a four-digit hexadecimal escape. -/
def hex4 (a b c d : Char) : Option Nat :=
  match hexVal a, hexVal b, hexVal c, hexVal d with
  | some x, some y, some z, some w =>
    some (((x * 16 + y) * 16 + z) * 16 + w)
  | _, _, _, _ => Option.none

/-- Decode one escape sequence of a JSON string literal (the character after
the backslash, and the input following it).  Surrogate pairs in `\uXXXX`
escapes are combined; a lone surrogate (which CPython would decode to a
string no `Char` can represent) is a modelled parse failure. -/
def decodeEsc (e : Char) (cs1 : List Char) : Option (Char × List Char) :=
  if e = '"' then some ('"', cs1)
  else if e = '\\' then some ('\\', cs1)
  else if e = '/' then some ('/', cs1)
  else if e = 'n' then some ('\n', cs1)
  else if e = 't' then some ('\t', cs1)
  else if e = 'r' then some ('\r', cs1)
  else if e = 'b' then some ('\x08', cs1)
  else if e = 'f' then some ('\x0c', cs1)
  else if e = 'u' then
    match cs1 with
    | h1 :: h2 :: h3 :: h4 :: cs2 =>
      match hex4 h1 h2 h3 h4 with
      | Option.none => Option.none
      | some n =>
        if n < 55296 ∨ 57344 ≤ n then some (Char.ofNat n, cs2)
        else if n < 56320 then
          match cs2 with
          | '\\' :: 'u' :: l1 :: l2 :: l3 :: l4 :: cs3 =>
            match hex4 l1 l2 l3 l4 with
            | some m =>
              if 56320 ≤ m ∧ m < 57344 then
                some (Char.ofNat (65536 + (n - 55296) * 1024 + (m - 56320)), cs3)
              else Option.none
            | Option.none => Option.none
          | _ => Option.none
        else Option.none
    | _ => Option.none
  else Option.none

/-- Parse the rest of a JSON string literal after its opening quote,
returning the decoded characters and the input after the closing quote.
Unescaped control characters are rejected as in strict-mode `json.loads`.
The fuel decreases once per decoded character; callers pass more fuel than
the input length, which always suffices. -/
def parseStrRest : Nat → List Char → Option (List Char × List Char)
  | 0, _ => Option.none
  | fuel + 1, cs =>
    match cs with
    | [] => Option.none
    | c :: cs0 =>
      if c = '"' then some ([], cs0)
      else if c = '\\' then
        match cs0 with
        | [] => Option.none
        | e :: cs1 =>
          match decodeEsc e cs1 with
          | some (d, cs2) => consStr d (parseStrRest fuel cs2)
          | Option.none => Option.none
      else if c.toNat < 32 then Option.none
      else consStr c (parseStrRest fuel cs0)

/-- Whether the input continues with a float-literal marker; float literals
(binary floating point) are outside the modelled fragment and make the
modelled parser fail. -/
def floatHead : List Char → Bool
  | c :: _ => c = '.' || c = 'e' || c = 'E'
  | [] => false

/-- Numeric value of a run of decimal digits. -/
def digitsVal (ds : List Char) : Nat :=
  ds.foldl (fun a c => a * 10 + (c.toNat - 48)) 0

/-- Parse a JSON integer's digit run (leading zeros rejected, as by
`json.loads`). -/
def parseNumberDigits (cs : List Char) : Option (Nat × List Char) :=
  match cs.takeWhile Char.isDigit, cs.dropWhile Char.isDigit with
  | [], _ => Option.none
  | [d], rest =>
    if floatHead rest then Option.none else some (digitsVal [d], rest)
  | d :: d2 :: ds, rest =>
    if d = '0' then Option.none
    else if floatHead rest then Option.none
    else some (digitsVal (d :: d2 :: ds), rest)

mutual

/-- One JSON value, by recursive descent with a fuel bound on the recursion
depth (`jsonLoads` supplies more fuel than any input can consume, since at
least one character is consumed for every two recursive calls).  Objects are
built exactly as `json.loads` builds a Python dict: successive `d[k] = v`
assignments, so a repeated key keeps its first position and last value. -/
def parseVal : Nat → List Char → Option (PyVal × List Char)
  | 0, _ => Option.none
  | fuel + 1, cs =>
    match skipWs cs with
    | [] => Option.none
    | c :: rest =>
      if c = '"' then
        (parseStrRest (rest.length + 1) rest).map fun p => (PyVal.str ⟨p.1⟩, p.2)
      else if c = '\x7b' then
        match skipWs rest with
        | '\x7d' :: r2 => some (PyVal.dict [], r2)
        | r2 =>
          match parseEntries fuel r2 with
          | some (es, r3) =>
            match r3 with
            | '\x7d' :: r4 => some (PyVal.dict (pyDictUpdate [] es), r4)
            | _ => Option.none
          | Option.none => Option.none
      else if c = '[' then
        match skipWs rest with
        | ']' :: r2 => some (PyVal.list [], r2)
        | r2 =>
          match parseItems fuel r2 with
          | some (vs, r3) =>
            match r3 with
            | ']' :: r4 => some (PyVal.list vs, r4)
            | _ => Option.none
          | Option.none => Option.none
      else if c = 't' then
        match rest with
        | 'r' :: 'u' :: 'e' :: r => some (PyVal.bool true, r)
        | _ => Option.none
      else if c = 'f' then
        match rest with
        | 'a' :: 'l' :: 's' :: 'e' :: r => some (PyVal.bool false, r)
        | _ => Option.none
      else if c = 'n' then
        match rest with
        | 'u' :: 'l' :: 'l' :: r => some (PyVal.none, r)
        | _ => Option.none
      else if c = '-' then
        match parseNumberDigits rest with
        | some (m, r) => some (PyVal.int (-(m : Int)), r)
        | Option.none => Option.none
      else if c.isDigit then
        match parseNumberDigits (c :: rest) with
        | some (m, r) => some (PyVal.int (m : Int), r)
        | Option.none => Option.none
      else Option.none

/-- One or more comma-separated JSON values; stops (without consuming) at the
first non-comma after a value. -/
def parseItems : Nat → List Char → Option (List PyVal × List Char)
  | 0, _ => Option.none
  | fuel + 1, cs =>
    match parseVal fuel cs with
    | some (v, r) =>
      match skipWs r with
      | ',' :: r2 =>
        match parseItems fuel r2 with
        | some (vs, r3) => some (v :: vs, r3)
        | Option.none => Option.none
      | r2 => some ([v], r2)
    | Option.none => Option.none

/-- One or more comma-separated `"key": value` pairs, returned in input
order (the enclosing object parse folds them into a dict). -/
def parseEntries : Nat → List Char → Option (List (String × PyVal) × List Char)
  | 0, _ => Option.none
  | fuel + 1, cs =>
    match skipWs cs with
    | '"' :: r1 =>
      match parseStrRest (r1.length + 1) r1 with
      | some (k, r2) =>
        match skipWs r2 with
        | ':' :: r3 =>
          match parseVal fuel r3 with
          | some (v, r4) =>
            match skipWs r4 with
            | ',' :: r5 =>
              match parseEntries fuel r5 with
              | some (es, r6) => some ((⟨k⟩, v) :: es, r6)
              | Option.none => Option.none
            | r5 => some ([(⟨k⟩, v)], r5)
          | Option.none => Option.none
        | _ => Option.none
      | Option.none => Option.none
    | _ => Option.none

end

/-- CPython `json.loads`: one JSON document, surrounded by optional
whitespace, nothing else.  The fuel `2 * length + 2` exceeds the recursion
depth any input can reach, since at least one input character is consumed
for every two recursive calls. -/
def jsonLoads (s : String) : Option PyVal :=
  match parseVal (2 * s.data.length + 2) s.data with
  | some (v, r) => if skipWs r = [] then some v else Option.none
  | Option.none => Option.none

mutual

/-- Specification predicate (from §3 of the spec): a *generic document*
representable in JSON — a finite tree of string scalars, lists and
string-keyed maps whose keys are distinct at every node. -/
def GDocB : PyVal → Bool
  | .str _ => true
  | .list xs => GDocListB xs
  | .dict es => decide ((es.map Prod.fst).Nodup) && GDocEntriesB es
  | _ => false

/-- All elements are generic documents. -/
def GDocListB : List PyVal → Bool
  | [] => true
  | x :: xs => GDocB x && GDocListB xs

/-- All entry values are generic documents. -/
def GDocEntriesB : List (String × PyVal) → Bool
  | [] => true
  | kv :: es => GDocB kv.2 && GDocEntriesB es

end

mutual

/-- Fuel bound used in the round-trip proof: an upper bound on the recursion
depth `parseVal` needs on the serialized form of a value. -/
def jsize : PyVal → Nat
  | .list xs => jsizeItems xs + 1
  | .dict es => jsizeEntries es + 1
  | _ => 1

/-- Fuel bound for `parseItems` on serialized items. -/
def jsizeItems : List PyVal → Nat
  | [] => 1
  | x :: xs => jsize x + 1 + jsizeItems xs

/-- Fuel bound for `parseEntries` on serialized entries. -/
def jsizeEntries : List (String × PyVal) → Nat
  | [] => 1
  | kv :: es => jsize kv.2 + 1 + jsizeEntries es

end

/-! ## XML: `etree.fromstring` and `BOEHTTPClient._xml_to_dict`
(`src/mcp_boe/utils/http_client.py`, lines 246–306) -/

/-- An XML element as `lxml.etree` presents it to the converter: tag,
attributes in document order, the character data between the start tag and
the first child (`element.text`, absent when empty), and the child elements.
Character data between or after children (the children's `tail`) is not read
by `_xml_to_dict` and is dropped by the parser model. -/
inductive XmlElem where
  | elem (tag : String) (attrib : List (String × String))
      (text : Option String) (children : List XmlElem)

/-- The element's tag (`child.tag` at line 287). -/
def XmlElem.tag : XmlElem → String
  | .elem t _ _ _ => t

/-- Truthiness of a Python `Optional[str]`: `None` and the empty string are
falsy. -/
def pyTruthy : Option String → Bool
  | some s => decide (s ≠ "")
  | Option.none => false

mutual

/-- `BOEHTTPClient._xml_to_dict` (lines 267–306).  Attributes become
`@`-prefixed entries; an element with children folds them into a dict
(repeated tags collected into a list, lines 289–295), stores its non-blank
stripped text under `'text'` (lines 297–299) and merges the attribute dict
with `result.update(child_dict)` (line 301); an element with no children
returns just its stripped text (line 304), discarding `result` — and with it
any attributes. -/
def xmlToDict : XmlElem → PyVal
  | .elem _ attrib text children =>
    let result : List (String × PyVal) :=
      attrib.map fun kv => ("@" ++ kv.1, PyVal.str kv.2)
    match children with
    | [] =>
      PyVal.str (match text with
        | some t => if t ≠ "" then pyStrip t else ""
        | Option.none => "")
    | c :: crest =>
      let child_dict := xmlChildFold (c :: crest) []
      let child_dict :=
        if pyTruthy text && decide (pyStrip (text.getD "") ≠ "") then
          pyDictSet child_dict "text" (PyVal.str (pyStrip (text.getD "")))
        else child_dict
      PyVal.dict (pyDictUpdate result child_dict)

/-- The `for child in children` loop of lines 285–295, folding the converted
children into `child_dict`: a repeated tag's value is turned into a list (in
place) and appended to, a fresh tag is assigned. -/
def xmlChildFold : List XmlElem → List (String × PyVal) →
    List (String × PyVal)
  | [], acc => acc
  | child :: rest, acc =>
    let cd := xmlToDict child
    let tg := child.tag
    let acc2 :=
      match pyDictGet acc tg with
      | some (PyVal.list l) => pyDictSet acc tg (PyVal.list (l ++ [cd]))
      | some old => pyDictSet acc tg (PyVal.list [old, cd])
      | Option.none => pyDictSet acc tg cd
    xmlChildFold rest acc2

end

/-- Characters allowed in the modelled XML names. -/
def isNameChar (c : Char) : Bool :=
  c.isAlphanum || c = '_' || c = '-' || c = '.' || c = ':'

mutual

/-- Attribute list of a start tag: name, `=`, quoted value; stops (without
consuming) at `>` or `/`.  Values may not contain their quote character;
entity references are outside the modelled fragment. -/
def xmlParseAttrs : Nat → List Char → Option (List (String × String) × List Char)
  | 0, _ => Option.none
  | fuel + 1, cs =>
    match skipWs cs with
    | [] => Option.none
    | c :: r =>
      if c = '>' ∨ c = '/' then some ([], c :: r)
      else
        match (c :: r).takeWhile isNameChar, (c :: r).dropWhile isNameChar with
        | [], _ => Option.none
        | nm, r1 =>
          match skipWs r1 with
          | '=' :: r2 =>
            match skipWs r2 with
            | q :: r3 =>
              if q = '"' ∨ q = '\'' then
                match r3.takeWhile (fun d => d ≠ q),
                    r3.dropWhile (fun d => d ≠ q) with
                | value, q2 :: r4 =>
                  if q2 = q then
                    match xmlParseAttrs fuel r4 with
                    | some (attrs, r5) => some ((⟨nm⟩, ⟨value⟩) :: attrs, r5)
                    | Option.none => Option.none
                  else Option.none
                | _, [] => Option.none
              else Option.none
            | [] => Option.none
          | _ => Option.none

/-- One element: start tag, attributes, then either `/>` or content plus a
matching end tag.  Models `lxml.etree.fromstring` on the plain-element
fragment: no comments, processing instructions, CDATA sections, entity or
character references, namespaces or prolog. -/
def xmlParseElem : Nat → List Char → Option (XmlElem × List Char)
  | 0, _ => Option.none
  | fuel + 1, cs =>
    match cs with
    | '<' :: cs1 =>
      match cs1.takeWhile isNameChar, cs1.dropWhile isNameChar with
      | [], _ => Option.none
      | nm, cs2 =>
        match xmlParseAttrs fuel cs2 with
        | some (attrs, cs3) =>
          match cs3 with
          | '/' :: '>' :: r => some (.elem ⟨nm⟩ attrs Option.none [], r)
          | '>' :: r =>
            let textRaw := r.takeWhile fun d => d ≠ '<'
            let r1 := r.dropWhile fun d => d ≠ '<'
            let text : Option String :=
              if textRaw.isEmpty then Option.none else some ⟨textRaw⟩
            match xmlParseChildren fuel r1 with
            | some (children, r2) =>
              match r2 with
              | '<' :: '/' :: r3 =>
                match r3.takeWhile isNameChar, r3.dropWhile isNameChar with
                | cname, r4 =>
                  if cname = nm then
                    match skipWs r4 with
                    | '>' :: r5 =>
                      some (.elem ⟨nm⟩ attrs text children, r5)
                    | _ => Option.none
                  else Option.none
              | _ => Option.none
            | Option.none => Option.none
          | _ => Option.none
        | Option.none => Option.none
    | _ => Option.none

/-- Child elements of an open element, the character data after each child
(its `tail`) skipped; stops (without consuming) at the closing `</`. -/
def xmlParseChildren : Nat → List Char → Option (List XmlElem × List Char)
  | 0, _ => Option.none
  | fuel + 1, cs =>
    match cs with
    | '<' :: '/' :: r => some ([], '<' :: '/' :: r)
    | '<' :: r =>
      match xmlParseElem fuel ('<' :: r) with
      | some (el, r2) =>
        match xmlParseChildren fuel (r2.dropWhile fun d => d ≠ '<') with
        | some (els, r4) => some (el :: els, r4)
        | Option.none => Option.none
      | Option.none => Option.none
    | _ => Option.none

end

/-- `lxml.etree.fromstring` on the modelled fragment: optional whitespace,
one element, optional whitespace.  The fuel `2 * length + 2` exceeds any
reachable recursion depth. -/
def xmlFromstring (s : String) : Option XmlElem :=
  let cs := skipWs s.data
  match xmlParseElem (2 * cs.length + 2) cs with
  | some (el, r) => if skipWs r = [] then some el else Option.none
  | Option.none => Option.none

/-! ## `BOEHTTPClient._parse_response` (lines 222–265) -/

/-- Outcome of `_parse_response`: the parsed value, a raised `APIError`, or a
non-`APIError` Python exception escaping the function (by exception type
name). -/
inductive ParseOutcome where
  | ok (v : PyVal)
  | err (e : APIErrorM)
  | pyError (excType : String)

/-- `BOEHTTPClient._parse_response` (lines 240–265).  The `except` clause at
line 259 names `etree.XMLSyntaxError`, but `etree` is a *function-local*
name, bound only by the `from lxml import etree` at line 248 inside the XML
branch.  When the JSON branch raises `json.JSONDecodeError`, CPython
evaluates the `except` clause's tuple to test the match, reads the unbound
local `etree`, and raises `UnboundLocalError` — which propagates in place of
any `APIError`.  The same happens for the `APIError(400)` raised by the
unsupported-format branch.  On the XML branch `etree` is bound before
`fromstring` can raise, so malformed XML is caught and converted to the
`APIError` of lines 260–265 (its `detalles`, `str(e)`, is modelled by the
exception's type name). -/
def parseResponse (content : String) (accept_format : String) : ParseOutcome :=
  if accept_format = "application/json" then
    match jsonLoads content with
    | some v => ParseOutcome.ok v
    | Option.none => ParseOutcome.pyError "UnboundLocalError"
  else if accept_format = "application/xml" then
    match xmlFromstring content with
    | some root => ParseOutcome.ok (xmlToDict root)
    | Option.none =>
      ParseOutcome.err
        ⟨500, "Error parseando respuesta de la API", some "XMLSyntaxError"⟩
  else ParseOutcome.pyError "UnboundLocalError"

/-! ## `BOEHTTPClient.build_search_query` (lines 443–499) -/

/-- The `query_parts` list of lines 468–479: one clause per truthy filter,
in the fixed order text, title, department, legal range, matter. -/
def buildQueryParts (text title department legal_range matter :
    Option String) : List String :=
  (if pyTruthy text then ["texto:\"" ++ text.getD "" ++ "\""] else []) ++
  (if pyTruthy title then ["titulo:\"" ++ title.getD "" ++ "\""] else []) ++
  (if pyTruthy department then
    ["departamento@codigo:" ++ department.getD ""] else []) ++
  (if pyTruthy legal_range then
    ["rango@codigo:" ++ legal_range.getD ""] else []) ++
  (if pyTruthy matter then ["materia@codigo:" ++ matter.getD ""] else [])

/-- The `query_json` dict of lines 481–497 before serialization:
`query_string` joins the clauses with `" AND "` (the empty string when there
are none), and a `range` entry with only the supplied bounds is assigned
into the inner dict exactly when a date bound is truthy. -/
def buildSearchQueryJson (text title department legal_range matter date_from
    date_to : Option String) : PyVal :=
  let query_string := String.intercalate " AND "
    (buildQueryParts text title department legal_range matter)
  let inner : List (String × PyVal) :=
    [("query_string", PyVal.dict [("query", PyVal.str query_string)])]
  let inner :=
    if pyTruthy date_from || pyTruthy date_to then
      let date_range : List (String × PyVal) :=
        (if pyTruthy date_from then
          [("gte", PyVal.str (date_from.getD ""))] else []) ++
        (if pyTruthy date_to then
          [("lte", PyVal.str (date_to.getD ""))] else [])
      pyDictSet inner "range"
        (PyVal.dict [("fecha_publicacion", PyVal.dict date_range)])
    else inner
  PyVal.dict [("query", PyVal.dict inner)]

/-- `BOEHTTPClient.build_search_query` (line 499): the dict serialized with
`json.dumps(..., ensure_ascii=False)`. -/
def build_search_query (text title department legal_range matter date_from
    date_to : Option String) : String :=
  jsonDumps (buildSearchQueryJson text title department legal_range matter
    date_from date_to)

/-- Observation on the built payload: the `range` sub-clause of the `query`
object, when present. -/
def queryRangeOf (v : PyVal) : Option PyVal :=
  match v with
  | PyVal.dict [("query", PyVal.dict inner)] => pyDictGet inner "range"
  | _ => Option.none

/-- Observation on the built payload: the `query_string.query` text. -/
def queryStringOf (v : PyVal) : Option PyVal :=
  match v with
  | PyVal.dict [("query", PyVal.dict inner)] =>
    match pyDictGet inner "query_string" with
    | some (PyVal.dict qs) => pyDictGet qs "query"
    | _ => Option.none
  | _ => Option.none

/-! ## `validate_boe_identifier` (`src/mcp_boe/models/boe_models.py`,
lines 490–493) and its use by `LegislationTools.get_consolidated_law`
(`src/mcp_boe/tools/legislation.py`, lines 403–408) -/

/-- The tail of the pattern after `(BOE|BORME)-S-`: exactly four digits, a
hyphen, then one to three digits.  `\d` is modelled as the ASCII digits
(Python's `re` also accepts non-ASCII Unicode decimal digits, outside the
modelled character set). -/
def boeDigitsTail : List Char → Bool
  | d1 :: d2 :: d3 :: d4 :: '-' :: rest =>
    d1.isDigit && d2.isDigit && d3.isDigit && d4.isDigit &&
      decide (1 ≤ rest.length) && decide (rest.length ≤ 3) &&
      rest.all Char.isDigit
  | _ => false

/-- The language of the regular expression `(BOE|BORME)-S-\d{4}-\d{1,3}`
itself, anchored at both ends (a specification-side definition, used to
compare the code's matcher against the pattern as written). -/
def boeCoreMatch (cs : List Char) : Bool :=
  match cs with
  | 'B' :: 'O' :: 'E' :: '-' :: 'S' :: '-' :: rest => boeDigitsTail rest
  | 'B' :: 'O' :: 'R' :: 'M' :: 'E' :: '-' :: 'S' :: '-' :: rest =>
    boeDigitsTail rest
  | _ => false

/-- `validate_boe_identifier`:
`bool(re.match(r'^(BOE|BORME)-S-\d{4}-\d{1,3}$', identifier))`.  Python's
`$` matches at the end of the string **or just before a newline at the end
of the string**, so the matcher also accepts the pattern followed by one
trailing newline. -/
def validate_boe_identifier (s : String) : Bool :=
  boeCoreMatch s.data ||
    (decide (s.data.getLast? = some '\n') && boeCoreMatch s.data.dropLast)

/-- The language of the pattern as written, with no trailing-newline
allowance (specification-side, for comparison). -/
def plainBoePattern (s : String) : Bool := boeCoreMatch s.data

/-- The pre-network validation gate of `LegislationTools.get_consolidated_law`
(`legislation.py` lines 403–408): the tool proceeds to the network exactly
when `validate_boe_identifier` accepts `law_id`; otherwise it returns the
invalid-parameter warning, whose expected format is described as
`BOE-A-YYYY-NNNNN`. -/
def getConsolidatedLawAccepts (law_id : String) : Bool :=
  validate_boe_identifier law_id

-- THEOREMS BELOW

/-! ## Helper lemmas -/

theorem countAtt_nil : countAtt [] = 0 := rfl

theorem countAtt_att (i : Nat) (o : AttemptOutcome) (tr : List RetryEvent) :
    countAtt (.att i o :: tr) = countAtt tr + 1 := by
  simp [countAtt, List.filter_cons]

theorem countAtt_backoff (d : ℚ) (tr : List RetryEvent) :
    countAtt (.backoff d :: tr) = countAtt tr := by
  simp [countAtt, List.filter_cons]

theorem sleepsOf_nil : sleepsOf [] = [] := rfl

theorem sleepsOf_att (i : Nat) (o : AttemptOutcome) (tr : List RetryEvent) :
    sleepsOf (.att i o :: tr) = sleepsOf tr := by
  simp [sleepsOf, List.filterMap_cons]

theorem sleepsOf_backoff (d : ℚ) (tr : List RetryEvent) :
    sleepsOf (.backoff d :: tr) = d :: sleepsOf tr := by
  simp [sleepsOf, List.filterMap_cons]

theorem isTransientB_iff {o : AttemptOutcome} :
    isTransientB o = true ↔ ∃ c, o = .transient c := by
  cases o <;> simp [isTransientB]

theorem makeRequestGo_zero (backend : Nat → AttemptOutcome) (R : Nat) (rd : ℚ)
    (attempt : Nat) (lastExc : Option String) :
    makeRequestGo backend R rd attempt 0 lastExc =
      ⟨.error (connectionError lastExc), []⟩ := rfl

theorem makeRequestGo_succ (backend : Nat → AttemptOutcome) (R : Nat) (rd : ℚ)
    (attempt rem : Nat) (lastExc : Option String) :
    makeRequestGo backend R rd attempt (rem + 1) lastExc =
      match backend attempt with
      | .success body => ⟨.ok body, [.att attempt (.success body)]⟩
      | .httpStatus code e =>
        ⟨.error (httpStatusAPIError code e), [.att attempt (.httpStatus code e)]⟩
      | .transient cause =>
        let rest := makeRequestGo backend R rd (attempt + 1) rem (some cause)
        ⟨rest.result,
          .att attempt (.transient cause) ::
            (if attempt < R then
              RetryEvent.backoff (rd * ((attempt : ℚ) + 1)) :: rest.trace
            else rest.trace)⟩ := rfl

/-- Every run trace of the retry loop is the concatenation, over the attempts
that actually ran, of the attempt event followed by its backoff sleep (when
one happens). -/
theorem makeRequestGo_trace (backend : Nat → AttemptOutcome) (R : Nat)
    (rd : ℚ) : ∀ rem attempt lastExc,
    (makeRequestGo backend R rd attempt rem lastExc).trace =
      (List.range' attempt
        (countAtt (makeRequestGo backend R rd attempt rem lastExc).trace)).flatMap
        (expectedRetryEvents backend R rd) := by
  intro rem
  induction rem with
  | zero => intro attempt lastExc; simp [makeRequestGo_zero, countAtt]
  | succ rem ih =>
    intro attempt lastExc
    cases h : backend attempt with
    | success body =>
      simp [makeRequestGo_succ, h, countAtt_att, countAtt_nil, List.range'_succ,
        expectedRetryEvents, isTransientB]
    | httpStatus code e =>
      simp [makeRequestGo_succ, h, countAtt_att, countAtt_nil, List.range'_succ,
        expectedRetryEvents, isTransientB]
    | transient cause =>
      have step : expectedRetryEvents backend R rd attempt =
          .att attempt (.transient cause) ::
            (if attempt < R then
              [RetryEvent.backoff (rd * ((attempt : ℚ) + 1))] else []) := by
        by_cases hlt : attempt < R <;>
          simp [expectedRetryEvents, h, isTransientB, hlt]
      have key : makeRequestGo backend R rd attempt (rem + 1) lastExc =
          ⟨(makeRequestGo backend R rd (attempt + 1) rem (some cause)).result,
            .att attempt (.transient cause) ::
              (if attempt < R then
                RetryEvent.backoff (rd * ((attempt : ℚ) + 1)) ::
                  (makeRequestGo backend R rd (attempt + 1) rem (some cause)).trace
              else
                (makeRequestGo backend R rd (attempt + 1) rem
                  (some cause)).trace)⟩ := by
        rw [makeRequestGo_succ, h]
      obtain ⟨n, hn⟩ : ∃ n,
          countAtt (makeRequestGo backend R rd (attempt + 1) rem
            (some cause)).trace = n := ⟨_, rfl⟩
      have ihT := ih (attempt + 1) (some cause)
      rw [hn] at ihT
      rw [key]
      by_cases hlt : attempt < R
      · rw [if_pos hlt]
        dsimp only
        rw [countAtt_att, countAtt_backoff, hn, List.range'_succ,
          List.flatMap_cons, step, if_pos hlt, ihT]
        simp
      · rw [if_neg hlt]
        dsimp only
        rw [countAtt_att, hn, List.range'_succ, List.flatMap_cons, step,
          if_neg hlt, ihT]
        simp

/-- Against an all-transient backend with causes `f`, a run of the loop with
`rem + 1` iterations left starting at `attempt` raises the connection
`APIError` wrapping the cause of the last attempt and performs `rem + 1`
attempts. -/
theorem makeRequestGo_allTransient (backend : Nat → AttemptOutcome)
    (f : Nat → String) (h : ∀ i, backend i = .transient (f i)) (R : Nat)
    (rd : ℚ) : ∀ rem attempt lastExc,
    (makeRequestGo backend R rd attempt (rem + 1) lastExc).result =
        .error (connectionError (some (f (attempt + rem)))) ∧
    countAtt (makeRequestGo backend R rd attempt (rem + 1) lastExc).trace =
        rem + 1 := by
  intro rem
  induction rem with
  | zero =>
    intro attempt lastExc
    by_cases hlt : attempt < R <;>
      simp [makeRequestGo_succ, makeRequestGo_zero, h attempt, hlt, countAtt_att,
        countAtt_backoff, countAtt_nil]
  | succ rem ih =>
    intro attempt lastExc
    obtain ⟨ih1, ih2⟩ := ih (attempt + 1) (some (f attempt))
    rw [show attempt + 1 + rem = attempt + (rem + 1) from by omega] at ih1
    have key : makeRequestGo backend R rd attempt (rem + 1 + 1) lastExc =
        ⟨(makeRequestGo backend R rd (attempt + 1) (rem + 1)
            (some (f attempt))).result,
          .att attempt (.transient (f attempt)) ::
            (if attempt < R then
              RetryEvent.backoff (rd * ((attempt : ℚ) + 1)) ::
                (makeRequestGo backend R rd (attempt + 1) (rem + 1)
                  (some (f attempt))).trace
            else
              (makeRequestGo backend R rd (attempt + 1) (rem + 1)
                (some (f attempt))).trace)⟩ := by
      rw [makeRequestGo_succ, h attempt]
    rw [key]
    dsimp only
    refine ⟨ih1, ?_⟩
    by_cases hlt : attempt < R
    · rw [if_pos hlt, countAtt_att, countAtt_backoff, ih2]
    · rw [if_neg hlt, countAtt_att, ih2]

/-- If the first `i` attempts fail transiently and attempt `i` raises an
`HTTPStatusError`, the loop stops there with the HTTP `APIError`. -/
theorem makeRequestGo_http (backend : Nat → AttemptOutcome) (R : Nat)
    (rd : ℚ) (st : Nat) (e : String) : ∀ i rem attempt lastExc,
    (∀ j, j < i → isTransientB (backend (attempt + j)) = true) →
    backend (attempt + i) = .httpStatus st e →
    i < rem →
    (makeRequestGo backend R rd attempt rem lastExc).result =
        .error (httpStatusAPIError st e) ∧
    countAtt (makeRequestGo backend R rd attempt rem lastExc).trace = i + 1 := by
  intro i
  induction i with
  | zero =>
    intro rem attempt lastExc _ h2 hlt
    obtain ⟨rem', rfl⟩ : ∃ rem', rem = rem' + 1 :=
      ⟨rem - 1, by omega⟩
    simp only [Nat.add_zero] at h2
    simp [makeRequestGo_succ, h2, countAtt_att, countAtt_nil]
  | succ i ih =>
    intro rem attempt lastExc h1 h2 hlt
    obtain ⟨rem', rfl⟩ : ∃ rem', rem = rem' + 1 := ⟨rem - 1, by omega⟩
    have htr : isTransientB (backend attempt) = true := by
      simpa using h1 0 (by omega)
    obtain ⟨cause, hc⟩ := isTransientB_iff.mp htr
    have h1' : ∀ j, j < i → isTransientB (backend (attempt + 1 + j)) = true := by
      intro j hj
      have := h1 (j + 1) (by omega)
      rwa [show attempt + (j + 1) = attempt + 1 + j from by omega] at this
    have h2' : backend (attempt + 1 + i) = .httpStatus st e := by
      rwa [show attempt + (i + 1) = attempt + 1 + i from by omega] at h2
    obtain ⟨ihr, ihc⟩ := ih rem' (attempt + 1) (some cause) h1' h2' (by omega)
    constructor
    · simpa [makeRequestGo_succ, hc] using ihr
    · by_cases hlt2 : attempt < R <;>
        simp [makeRequestGo_succ, hc, hlt2, countAtt_att, countAtt_backoff, ihc]

theorem sleepsOf_append (a b : List RetryEvent) :
    sleepsOf (a ++ b) = sleepsOf a ++ sleepsOf b := by
  simp [sleepsOf, List.filterMap_append]

theorem sleepsOf_flatMap_expected (backend : Nat → AttemptOutcome) (R : Nat)
    (rd : ℚ) : ∀ l : List Nat,
    sleepsOf (l.flatMap (expectedRetryEvents backend R rd)) =
      (l.filter fun i => isTransientB (backend i) && decide (i < R)).map
        (fun i => rd * ((i : ℚ) + 1)) := by
  intro l
  induction l with
  | nil => rfl
  | cons i t ih =>
    rw [List.flatMap_cons, sleepsOf_append, List.filter_cons]
    by_cases hc : (isTransientB (backend i) && decide (i < R)) = true
    · simp [expectedRetryEvents, hc, sleepsOf_att, sleepsOf_backoff,
        sleepsOf_nil, ih]
    · simp [expectedRetryEvents, hc, sleepsOf_att, sleepsOf_nil, ih,
        List.map_cons]

/-! ## Claim C1, C2, C8 theorems -/

/-- C1: for every `maxRetries = R ≥ 0`, when every attempt fails with a
transient fault, `_make_request` performs exactly `R + 1` attempts and then
raises the `APIError` with `codigo = 500` whose `detalles` wrap the last
transient cause (`str(last_exception)`); in particular `R = 0` means exactly
one attempt with no backoff sleep. -/
theorem retry_all_transient_exhausts (R : Nat) (rd : ℚ)
    (backend : Nat → AttemptOutcome) (f : Nat → String)
    (h : ∀ i, backend i = .transient (f i)) :
    countAtt (makeRequest backend R rd).trace = R + 1 ∧
    (makeRequest backend R rd).result =
      .error ⟨500, "Error de conexión después de varios reintentos",
        some (f R)⟩ ∧
    (R = 0 → sleepsOf (makeRequest backend R rd).trace = []) := by
  obtain ⟨h1, h2⟩ := makeRequestGo_allTransient backend f h R rd R 0 Option.none
  refine ⟨h2, ?_, ?_⟩
  · simpa [makeRequest, connectionError] using h1
  · intro hR
    subst hR
    show sleepsOf (makeRequestGo backend 0 rd 0 (0 + 1) Option.none).trace = []
    rw [makeRequestGo_succ, h 0]
    simp [makeRequestGo_zero, sleepsOf_att, sleepsOf_nil]

theorem retry_all_transient_exhausts_witness :
    (∀ i : Nat, (fun _ : Nat => AttemptOutcome.transient "timeout") i =
        AttemptOutcome.transient ((fun _ : Nat => "timeout") i)) ∧
    (countAtt (makeRequest (fun _ => AttemptOutcome.transient "timeout")
        2 1).trace = 2 + 1 ∧
      (makeRequest (fun _ => AttemptOutcome.transient "timeout") 2 1).result =
        .error ⟨500, "Error de conexión después de varios reintentos",
          some "timeout"⟩ ∧
      (2 = 0 → sleepsOf (makeRequest (fun _ => AttemptOutcome.transient
        "timeout") 2 1).trace = [])) :=
  ⟨fun _ => rfl,
    retry_all_transient_exhausts 2 1 _ (fun _ => "timeout") (fun _ => rfl)⟩

/-- C2: a response with a non-2xx HTTP status (reached after `i` transient
attempts, `i ≤ maxRetries`) makes `_make_request` fail immediately with the
`APIError` whose `codigo` is the HTTP status and whose `detalles` carry
`str(e)` of the `HTTPStatusError`, with no further attempts regardless of the
remaining retries; with `i = 0` a backend returning 404 is called exactly
once. -/
theorem http_status_fails_immediately (backend : Nat → AttemptOutcome)
    (R i st : Nat) (e : String) (rd : ℚ)
    (h1 : ∀ j, j < i → isTransientB (backend j) = true)
    (h2 : backend i = .httpStatus st e)
    (h3 : i ≤ R) :
    countAtt (makeRequest backend R rd).trace = i + 1 ∧
    (makeRequest backend R rd).result =
      .error ⟨st, "Error HTTP " ++ toString st, some e⟩ := by
  have h1' : ∀ j, j < i → isTransientB (backend (0 + j)) = true := by
    intro j hj; rw [Nat.zero_add]; exact h1 j hj
  have h2' : backend (0 + i) = .httpStatus st e := by rw [Nat.zero_add]; exact h2
  obtain ⟨hr, hc⟩ := makeRequestGo_http backend R rd st e i (R + 1) 0
    Option.none h1' h2' (by omega)
  exact ⟨hc, hr⟩

theorem http_status_fails_immediately_witness :
    (∀ j : Nat, j < 0 →
      isTransientB ((fun _ : Nat => AttemptOutcome.httpStatus 404
        "404 Client Error") j) = true) ∧
    (fun _ : Nat => AttemptOutcome.httpStatus 404 "404 Client Error") 0 =
      AttemptOutcome.httpStatus 404 "404 Client Error" ∧
    0 ≤ 3 ∧
    (countAtt (makeRequest (fun _ => AttemptOutcome.httpStatus 404
        "404 Client Error") 3 1).trace = 0 + 1 ∧
      (makeRequest (fun _ => AttemptOutcome.httpStatus 404
        "404 Client Error") 3 1).result =
        .error ⟨404, "Error HTTP " ++ toString 404, some "404 Client Error"⟩) :=
  ⟨fun j hj => absurd hj (Nat.not_lt_zero j), rfl, Nat.zero_le 3,
    http_status_fails_immediately _ 3 0 404 "404 Client Error" 1
      (fun j hj => absurd hj (Nat.not_lt_zero j)) rfl (Nat.zero_le 3)⟩

/-- C8: the trace of a `_make_request` run consists, for each attempt `i`
that ran, of the attempt followed by a backoff sleep of exactly
`retry_delay * (i + 1)` when (and only when) the attempt failed transiently
and `i < max_retries`; consequently the sleep list is the linear backoff
schedule over those attempts, and in particular no sleep follows the final
attempt (index `maxRetries`). -/
theorem retry_linear_backoff_schedule (backend : Nat → AttemptOutcome)
    (R : Nat) (rd : ℚ) :
    (makeRequest backend R rd).trace =
      (List.range (countAtt (makeRequest backend R rd).trace)).flatMap
        (expectedRetryEvents backend R rd) ∧
    sleepsOf (makeRequest backend R rd).trace =
      ((List.range (countAtt (makeRequest backend R rd).trace)).filter
        (fun i => isTransientB (backend i) && decide (i < R))).map
        (fun i => rd * ((i : ℚ) + 1)) := by
  have h1 : (makeRequest backend R rd).trace =
      (List.range (countAtt (makeRequest backend R rd).trace)).flatMap
        (expectedRetryEvents backend R rd) := by
    have h0 := makeRequestGo_trace backend R rd (R + 1) 0 Option.none
    rw [← List.range_eq_range'] at h0
    exact h0
  obtain ⟨n, hn⟩ : ∃ n, countAtt (makeRequest backend R rd).trace = n := ⟨_, rfl⟩
  rw [hn] at h1 ⊢
  exact ⟨h1, by rw [h1]; exact sleepsOf_flatMap_expected backend R rd _⟩

/-! ## Character and word lemmas for the validator -/

theorem char_toNat_inj {a b : Char} : a = b ↔ a.toNat = b.toNat := by
  constructor
  · intro h; subst h; rfl
  · intro h
    apply Char.ext
    apply UInt32.eq_of_toBitVec_eq
    apply BitVec.eq_of_toNat_eq
    exact h

theorem isWhitespace_iff_toNat (c : Char) :
    c.isWhitespace =
      decide (c.toNat = 32 ∨ c.toNat = 9 ∨ c.toNat = 13 ∨ c.toNat = 10) := by
  simp only [Char.isWhitespace, char_toNat_inj]
  norm_num [show (' ').toNat = 32 from rfl, show ('\t').toNat = 9 from rfl,
    show ('\x0d').toNat = 13 from rfl, show ('\n').toNat = 10 from rfl,
    Bool.or_assoc]

theorem char_toNat_ofNat_valid (m : Nat) (h : m < 55296) :
    (Char.ofNat m).toNat = m := by
  rw [Char.ofNat, dif_pos (Or.inl h)]; rfl

theorem pyLowerChar_isWhitespace (c : Char) :
    (pyLowerChar c).isWhitespace = c.isWhitespace := by
  simp only [pyLowerChar, Char.toLower]
  split
  · next h =>
    rw [isWhitespace_iff_toNat, isWhitespace_iff_toNat,
      char_toNat_ofNat_valid _ (by omega)]
    simp only [decide_eq_decide]
    omega
  · rfl

theorem list_isEmpty_map {α β : Type} (f : α → β) (l : List α) :
    (l.map f).isEmpty = l.isEmpty := by
  cases l <;> rfl

theorem pyWordsAux_map_lower : ∀ cs acc : List Char,
    pyWordsAux (cs.map pyLowerChar) (acc.map pyLowerChar) =
      (pyWordsAux cs acc).map pyLower := by
  intro cs
  induction cs with
  | nil =>
    intro acc
    by_cases h : acc.isEmpty <;>
      simp [pyWordsAux, h, list_isEmpty_map, pyLower, List.map_reverse]
  | cons c cs ih =>
    intro acc
    simp only [List.map_cons, pyWordsAux, pyLowerChar_isWhitespace]
    by_cases hws : c.isWhitespace
    · rw [if_pos hws, if_pos hws, list_isEmpty_map]
      by_cases hacc : acc.isEmpty
      · rw [if_pos hacc, if_pos hacc]
        simpa using ih []
      · rw [if_neg hacc, if_neg hacc, List.map_cons]
        have := ih []
        simp only [List.map_nil] at this
        rw [this]
        congr 1
        simp [pyLower, List.map_reverse]
    · rw [if_neg hws, if_neg hws]
      exact ih (c :: acc)

theorem pyWords_lower_comm (s : String) :
    pyWords (pyLower s) = (pyWords s).map pyLower := by
  have h := pyWordsAux_map_lower s.data []
  simpa [pyWords, pyLower] using h

theorem listInfix_iff (n : List Char) : ∀ h : List Char,
    listInfix n h = true ↔ n <:+: h := by
  intro h
  induction h with
  | nil =>
    simp [listInfix, List.isEmpty_iff]
  | cons c t ih =>
    simp only [listInfix, Bool.or_eq_true, ih, List.isPrefixOf_iff_prefix,
      List.infix_cons_iff]

/-! ## Claim C4 and C7 theorems -/

/-- C4 counterexample: for the empty result list the validator returns
`confidence = 0 < 0.30` and yet `likely_incorrect = False` (the early return
of lines 233–234 of `warnings_handler.py` skips the threshold test), so
`likely_incorrect` does not hold exactly when `confidence < 0.30`. -/
theorem validator_empty_results_counterexample :
    (validate_search_results "constitución" []).confidence < 3 / 10 ∧
    (validate_search_results "constitución" []).likely_incorrect = false := by
  constructor
  · show (0 : ℚ) < 3 / 10
    norm_num
  · rfl

/-- C4 (amended): the validation report satisfies
`matching_results ≤ total_results` and
`confidence = matching_results / total_results` when `total_results > 0`
(`0` otherwise), and `likely_incorrect` holds exactly when at least one
result is present **and** `confidence < 0.30`; for the empty result list
`confidence` is `0` but `likely_incorrect` is `False`. -/
theorem validator_report_invariants (s : String) (rs : List SearchResultRec) :
    (validate_search_results s rs).matching_results ≤
        (validate_search_results s rs).total_results ∧
    (validate_search_results s rs).confidence =
      (if 0 < (validate_search_results s rs).total_results then
        ((validate_search_results s rs).matching_results : ℚ) /
          ((validate_search_results s rs).total_results : ℚ)
      else 0) ∧
    ((validate_search_results s rs).likely_incorrect = true ↔
      (0 < (validate_search_results s rs).total_results ∧
        (validate_search_results s rs).confidence < 3 / 10)) := by
  by_cases hrs : rs.isEmpty
  · rw [List.isEmpty_iff] at hrs
    subst hrs
    refine ⟨le_refl _, ?_, ?_⟩ <;> simp [validate_search_results]
  · have hpos : 0 < rs.length := by
      cases rs with
      | nil => simp at hrs
      | cons a t => simp
    simp only [validate_search_results, hrs, if_false, Bool.false_eq_true]
    refine ⟨List.length_filter_le _ _, ?_, ?_⟩
    · simp [hpos]
    · simp [hpos, decide_eq_true_iff]

/-- C7: the validator tokenizes the search text on whitespace with each token
lowercased; a result matches exactly when some token is a contiguous
substring of its lowercased title or of its lowercased identifier; and
`mismatched_titles` is precisely the list of titles (with the `'Sin título'`
default of `result.get('titulo', 'Sin título')` for a missing title) of the
non-matching results, in input order. -/
theorem validator_tokens_and_mismatches (s : String)
    (rs : List SearchResultRec) :
    (validate_search_results s rs).matching_results =
        (rs.filter (resultMatches ((pyWords s).map pyLower))).length ∧
    (validate_search_results s rs).mismatched_titles =
        (rs.filter fun r => !resultMatches ((pyWords s).map pyLower) r).map
          (fun r => r.titulo.getD "Sin título") ∧
    (∀ r : SearchResultRec,
      resultMatches ((pyWords s).map pyLower) r = true ↔
        ∃ t ∈ (pyWords s).map pyLower,
          (t.data <:+: (pyLower (r.titulo.getD "")).data ∨
            t.data <:+: (pyLower (r.identificador.getD "")).data)) := by
  refine ⟨?_, ?_, ?_⟩
  · by_cases hrs : rs.isEmpty
    · rw [List.isEmpty_iff] at hrs
      subst hrs
      simp [validate_search_results]
    · simp only [validate_search_results, hrs, if_false]
      rw [pyWords_lower_comm]
      simp
  · by_cases hrs : rs.isEmpty
    · rw [List.isEmpty_iff] at hrs
      subst hrs
      simp [validate_search_results]
    · simp only [validate_search_results, hrs, if_false]
      rw [pyWords_lower_comm]
      simp
  · intro r
    simp only [resultMatches, List.any_eq_true, pyInStr, Bool.or_eq_true,
      listInfix_iff]

/-! ## JSON round-trip lemmas -/

theorem hexVal_digitChar : ∀ n, n < 16 → hexVal (Nat.digitChar n) = some n := by
  decide

theorem skipWs_cons_not_ws {c : Char} (h : c.isWhitespace = false)
    (l : List Char) : skipWs (c :: l) = c :: l := by
  simp [skipWs, h]

theorem skipWs_cons_ws {c : Char} (h : c.isWhitespace = true)
    (l : List Char) : skipWs (c :: l) = skipWs l := by
  simp [skipWs, h]


theorem parseStrRest_quote (G : Nat) (tl : List Char) :
    parseStrRest (G + 1) ('"' :: tl) = some ([], tl) := by
  simp [parseStrRest]

theorem parseStrRest_esc (G : Nat) (e : Char) (tl : List Char) :
    parseStrRest (G + 1) ('\\' :: e :: tl) =
      match decodeEsc e tl with
      | some (d, cs2) => consStr d (parseStrRest G cs2)
      | Option.none => Option.none := by
  simp [parseStrRest]

theorem parseStrRest_lit (G : Nat) {c : Char} (h1 : ¬ c = '"')
    (h2 : ¬ c = '\\') (h8 : ¬ c.toNat < 32) (tl : List Char) :
    parseStrRest (G + 1) (c :: tl) = consStr c (parseStrRest G tl) := by
  simp [parseStrRest, h1, h2, h8]

theorem parse_escape (cs : List Char) : ∀ F rest, cs.length < F →
    parseStrRest F (escapeString cs ++ '"' :: rest) = some (cs, rest) := by
  induction cs with
  | nil =>
    intro F rest hF
    obtain ⟨G, rfl⟩ : ∃ G, F = G + 1 := ⟨F - 1, by omega⟩
    simp [escapeString, parseStrRest_quote]
  | cons c cs ih =>
    intro F rest hF
    obtain ⟨G, rfl⟩ : ∃ G, F = G + 1 := ⟨F - 1, by omega⟩
    have hG : cs.length < G := by
      simp only [List.length_cons] at hF; omega
    have hs : escapeString (c :: cs) ++ '"' :: rest =
        escapeChar c ++ (escapeString cs ++ '"' :: rest) := by
      simp [escapeString]
    rw [hs]
    by_cases h1 : c = '"'
    · subst h1
      simp [escapeChar, parseStrRest_esc, decodeEsc, consStr, ih G rest hG]
    by_cases h2 : c = '\\'
    · subst h2
      simp [escapeChar, parseStrRest_esc, decodeEsc, consStr, ih G rest hG]
    by_cases h3 : c = '\n'
    · subst h3
      simp [escapeChar, h1, h2, parseStrRest_esc, decodeEsc, consStr,
        ih G rest hG]
    by_cases h4 : c = '\t'
    · subst h4
      simp [escapeChar, h1, h2, h3, parseStrRest_esc, decodeEsc, consStr,
        ih G rest hG]
    by_cases h5 : c = '\r'
    · subst h5
      simp [escapeChar, h1, h2, h3, h4, parseStrRest_esc, decodeEsc, consStr,
        ih G rest hG]
    by_cases h6 : c = '\x08'
    · subst h6
      simp [escapeChar, h1, h2, h3, h4, h5, parseStrRest_esc, decodeEsc,
        consStr, ih G rest hG]
    by_cases h7 : c = '\x0c'
    · subst h7
      simp [escapeChar, h1, h2, h3, h4, h5, h6, parseStrRest_esc, decodeEsc,
        consStr, ih G rest hG]
    by_cases h8 : c.toNat < 32
    · have he : escapeChar c = ['\\', 'u', '0', '0',
          Nat.digitChar (c.toNat / 16), Nat.digitChar (c.toNat % 16)] := by
        simp [escapeChar, h1, h2, h3, h4, h5, h6, h7, h8]
      have hd1 := hexVal_digitChar (c.toNat / 16) (by omega)
      have hd2 := hexVal_digitChar (c.toNat % 16) (by omega)
      have h0 : hexVal '0' = some 0 := rfl
      have hdec : decodeEsc 'u' ('0' :: '0' :: Nat.digitChar (c.toNat / 16) ::
          Nat.digitChar (c.toNat % 16) :: (escapeString cs ++ '"' :: rest)) =
          some (c, escapeString cs ++ '"' :: rest) := by
        simp [decodeEsc, hex4, h0, hd1, hd2]
        have hx : c.toNat / 16 * 16 + c.toNat % 16 = c.toNat := by omega
        rw [hx, if_pos (Or.inl (by omega : c.toNat < 55296)),
          Char.ofNat_toNat]
      rw [he]
      simp only [List.cons_append, List.nil_append]
      rw [parseStrRest_esc, hdec]
      simp [consStr, ih G rest hG]
    · have he : escapeChar c = [c] := by
        simp [escapeChar, h1, h2, h3, h4, h5, h6, h7, h8]
      rw [he]
      simp only [List.cons_append, List.nil_append]
      rw [parseStrRest_lit G h1 h2 h8, ih G rest hG]
      simp [consStr]

theorem jsize_pos (v : PyVal) : 1 ≤ jsize v := by
  cases v <;> simp [jsize]

theorem jsizeItems_pos (xs : List PyVal) : 1 ≤ jsizeItems xs := by
  cases xs <;> simp [jsizeItems] <;> omega

theorem jsizeEntries_pos (es : List (String × PyVal)) :
    1 ≤ jsizeEntries es := by
  cases es <;> simp [jsizeEntries] <;> omega

theorem pyDictSet_of_not_mem (k : String) (v : PyVal) :
    ∀ d : List (String × PyVal), k ∉ d.map Prod.fst →
      pyDictSet d k v = d ++ [(k, v)] := by
  intro d
  induction d with
  | nil => intro _; rfl
  | cons kv d ih =>
    intro h
    simp only [List.map_cons, List.mem_cons, not_or] at h
    simp [pyDictSet, Ne.symm h.1, ih h.2]

theorem pyDictUpdate_of_nodup :
    ∀ es d : List (String × PyVal), (es.map Prod.fst).Nodup →
      (∀ k ∈ es.map Prod.fst, k ∉ d.map Prod.fst) →
      pyDictUpdate d es = d ++ es := by
  intro es
  induction es with
  | nil => intro d _ _; simp [pyDictUpdate]
  | cons kv es ih =>
    intro d hnd hdisj
    have step : pyDictUpdate d (kv :: es) =
        pyDictUpdate (pyDictSet d kv.1 kv.2) es := by
      simp [pyDictUpdate]
    rw [step, pyDictSet_of_not_mem kv.1 kv.2 d (hdisj kv.1 (by simp))]
    rw [ih (d ++ [(kv.1, kv.2)]) (by simpa using hnd.of_cons) ?_]
    · simp
    · intro k hk
      simp only [List.map_append, List.map_cons, List.map_nil, List.mem_append,
        List.mem_singleton, not_or]
      refine ⟨hdisj k (by simp [hk]), ?_⟩
      intro hke
      rcases List.mem_map.mp hk with ⟨e, he, rfl⟩
      have := (List.nodup_cons.mp hnd).1
      exact this (by simpa [hke] using List.mem_map_of_mem Prod.fst he)

theorem dump_head (v : PyVal) (h : GDocB v = true) :
    ∃ l, dumpVal v = '"' :: l ∨ dumpVal v = '[' :: l ∨
      dumpVal v = '\x7b' :: l := by
  cases v with
  | str s =>
    refine ⟨escapeString s.data ++ ['"'], Or.inl ?_⟩
    simp [dumpVal, dumpStr]
  | list xs =>
    refine ⟨dumpItems xs ++ [']'], Or.inr (Or.inl ?_)⟩
    simp [dumpVal]
  | dict es =>
    refine ⟨dumpEntries es ++ ['\x7d'], Or.inr (Or.inr ?_)⟩
    simp [dumpVal]
  | none => simp [GDocB] at h
  | bool b => simp [GDocB] at h
  | int n => simp [GDocB] at h

theorem parseVal_ws (fuel : Nat) {c : Char} (h : c.isWhitespace = true)
    (l : List Char) : parseVal fuel (c :: l) = parseVal fuel l := by
  cases fuel with
  | zero => rfl
  | succ g => simp only [parseVal, skipWs_cons_ws h]

theorem parseItems_ws (fuel : Nat) {c : Char} (h : c.isWhitespace = true)
    (l : List Char) : parseItems fuel (c :: l) = parseItems fuel l := by
  cases fuel with
  | zero => rfl
  | succ g => simp only [parseItems, parseVal_ws g h]

theorem parseEntries_ws (fuel : Nat) {c : Char} (h : c.isWhitespace = true)
    (l : List Char) : parseEntries fuel (c :: l) = parseEntries fuel l := by
  cases fuel with
  | zero => rfl
  | succ g => simp only [parseEntries, skipWs_cons_ws h]

theorem escapeChar_length_pos (c : Char) : 1 ≤ (escapeChar c).length := by
  unfold escapeChar
  repeat' split
  all_goals simp

theorem escapeString_length (cs : List Char) :
    cs.length ≤ (escapeString cs).length := by
  induction cs with
  | nil => simp [escapeString]
  | cons c cs ih =>
    have h : escapeString (c :: cs) = escapeChar c ++ escapeString cs := by
      simp [escapeString]
    rw [h]
    have := escapeChar_length_pos c
    simp only [List.length_append, List.length_cons]
    omega

theorem string_eta (s : String) : (⟨s.data⟩ : String) = s := rfl

/-- Round-trip induction, packaged over a size bound: on the serialized form
of a generic document, the parser returns exactly the document (and, for item
and entry lists, exactly the serialized items and the raw entry list). -/
theorem roundtrip_pack : ∀ N : Nat,
    (∀ v : PyVal, jsize v ≤ N → GDocB v = true → ∀ fuel rest, jsize v < fuel →
      parseVal fuel (dumpVal v ++ rest) = some (v, rest)) ∧
    (∀ xs : List PyVal, xs ≠ [] → jsizeItems xs ≤ N → GDocListB xs = true →
      ∀ fuel rest, jsizeItems xs < fuel →
      parseItems fuel (dumpItems xs ++ ']' :: rest) = some (xs, ']' :: rest)) ∧
    (∀ es : List (String × PyVal), es ≠ [] → jsizeEntries es ≤ N →
      GDocEntriesB es = true → ∀ fuel rest, jsizeEntries es < fuel →
      parseEntries fuel (dumpEntries es ++ '\x7d' :: rest) =
        some (es, '\x7d' :: rest)) := by
  intro N
  induction N with
  | zero =>
    refine ⟨?_, ?_, ?_⟩
    · intro v hN
      have := jsize_pos v; omega
    · intro xs _ hN
      have := jsizeItems_pos xs; omega
    · intro es _ hN
      have := jsizeEntries_pos es; omega
  | succ N ih =>
    obtain ⟨ih1, ih2, ih3⟩ := ih
    refine ⟨?_, ?_, ?_⟩
    · -- one value
      intro v hN hG fuel rest hfuel
      obtain ⟨g, rfl⟩ : ∃ g, fuel = g + 1 :=
        ⟨fuel - 1, by have := jsize_pos v; omega⟩
      cases v with
      | none => simp [GDocB] at hG
      | bool b => simp [GDocB] at hG
      | int n => simp [GDocB] at hG
      | str s =>
        rw [show dumpVal (PyVal.str s) ++ rest =
            '"' :: (escapeString s.data ++ '"' :: rest) from by
          simp [dumpVal, dumpStr]]
        have hlen : s.data.length <
            (escapeString s.data ++ '"' :: rest).length + 1 := by
          have := escapeString_length s.data
          simp only [List.length_append, List.length_cons]
          omega
        simp [parseVal, skipWs, string_eta]
        exact ⟨s.data, parse_escape s.data _ rest
          (by have := escapeString_length s.data; omega), rfl⟩
      | list xs =>
        have hG' : GDocListB xs = true := by simpa [GDocB] using hG
        have hN' : jsizeItems xs ≤ N := by simp [jsize] at hN; omega
        have hfuel' : jsizeItems xs < g := by simp [jsize] at hfuel; omega
        cases xs with
        | nil =>
          rw [show dumpVal (PyVal.list []) ++ rest =
              '[' :: ']' :: rest from by simp [dumpVal, dumpItems]]
          simp [parseVal, skipWs]
        | cons x xs =>
          obtain ⟨t, ht⟩ : ∃ t, dumpItems (x :: xs) = dumpVal x ++ t := by
            cases xs with
            | nil => exact ⟨[], by simp [dumpItems]⟩
            | cons y ys =>
              exact ⟨',' :: ' ' :: dumpItems (y :: ys), by simp [dumpItems]⟩
          have hGx : GDocB x = true := by
            simp [GDocListB, Bool.and_eq_true] at hG'
            exact hG'.1
          obtain ⟨l, hl⟩ := dump_head x hGx
          have hitems := ih2 (x :: xs) (by simp) hN' hG' g rest hfuel'
          rw [show dumpVal (PyVal.list (x :: xs)) ++ rest =
              '[' :: (dumpItems (x :: xs) ++ ']' :: rest) from by
            simp [dumpVal]]
          rcases hl with hl | hl | hl <;>
          · rw [ht, hl] at hitems ⊢
            simp only [List.cons_append, List.append_assoc] at hitems ⊢
            simp [parseVal, skipWs, hitems]
      | dict es =>
        have hGnd : ((es.map Prod.fst).Nodup) ∧ GDocEntriesB es = true := by
          have h2 := hG
          simp [GDocB, Bool.and_eq_true] at h2
          exact ⟨h2.1, h2.2⟩
        have hN' : jsizeEntries es ≤ N := by simp [jsize] at hN; omega
        have hfuel' : jsizeEntries es < g := by simp [jsize] at hfuel; omega
        cases es with
        | nil =>
          rw [show dumpVal (PyVal.dict []) ++ rest =
              '\x7b' :: '\x7d' :: rest from by simp [dumpVal, dumpEntries]]
          simp [parseVal, skipWs]
        | cons e es =>
          obtain ⟨t, ht⟩ : ∃ t, dumpEntries (e :: es) = '"' ::
              (escapeString e.1.data ++ t) := by
            cases es with
            | nil =>
              exact ⟨'"' :: ':' :: ' ' :: dumpVal e.2, by
                simp [dumpEntries, dumpStr]⟩
            | cons f fs =>
              exact ⟨'"' :: ':' :: ' ' :: (dumpVal e.2 ++ ',' :: ' ' ::
                dumpEntries (f :: fs)), by simp [dumpEntries, dumpStr]⟩
          have hentries := ih3 (e :: es) (by simp) hN' hGnd.2 g rest hfuel'
          have hupd := pyDictUpdate_of_nodup (e :: es) [] hGnd.1 (by simp)
          rw [show dumpVal (PyVal.dict (e :: es)) ++ rest =
              '\x7b' :: (dumpEntries (e :: es) ++ '\x7d' :: rest) from by
            simp [dumpVal]]
          rw [ht] at hentries ⊢
          simp only [List.cons_append, List.append_assoc] at hentries ⊢
          simp [parseVal, skipWs, hentries, hupd]
    · -- items
      intro xs hne hN hG fuel rest hfuel
      obtain ⟨g, rfl⟩ : ∃ g, fuel = g + 1 :=
        ⟨fuel - 1, by have := jsizeItems_pos xs; omega⟩
      cases xs with
      | nil => exact absurd rfl hne
      | cons x xs =>
        have hGx : GDocB x = true ∧ GDocListB xs = true := by
          simpa [GDocListB, Bool.and_eq_true] using hG
        have hsize : jsize x + 1 + jsizeItems xs ≤ N + 1 := by
          simpa [jsizeItems] using hN
        have hfx : jsize x + 1 + jsizeItems xs < g + 1 := by
          simpa [jsizeItems] using hfuel
        have hjx := jsize_pos x
        have hji := jsizeItems_pos xs
        cases xs with
        | nil =>
          have hx := ih1 x (by omega) hGx.1 g (']' :: rest) (by omega)
          rw [show dumpItems [x] ++ ']' :: rest = dumpVal x ++ ']' :: rest
            from by simp [dumpItems]]
          simp [parseItems, hx, skipWs]
        | cons y ys =>
          have hx := ih1 x (by omega) hGx.1 g
            (',' :: ' ' :: (dumpItems (y :: ys) ++ ']' :: rest)) (by omega)
          have hrest := ih2 (y :: ys) (by simp) (by omega) hGx.2 g rest
            (by omega)
          have hws : parseItems g (' ' :: (dumpItems (y :: ys) ++ ']' :: rest))
              = parseItems g (dumpItems (y :: ys) ++ ']' :: rest) :=
            parseItems_ws g (by rfl) _
          rw [show dumpItems (x :: y :: ys) ++ ']' :: rest =
              dumpVal x ++ (',' :: ' ' ::
                (dumpItems (y :: ys) ++ ']' :: rest)) from by
            simp [dumpItems]]
          simp [parseItems, hx, skipWs, hws, hrest]
    · -- entries
      intro es hne hN hG fuel rest hfuel
      obtain ⟨g, rfl⟩ : ∃ g, fuel = g + 1 :=
        ⟨fuel - 1, by have := jsizeEntries_pos es; omega⟩
      cases es with
      | nil => exact absurd rfl hne
      | cons e es =>
        have hGx : GDocB e.2 = true ∧ GDocEntriesB es = true := by
          simpa [GDocEntriesB, Bool.and_eq_true] using hG
        have hsize : jsize e.2 + 1 + jsizeEntries es ≤ N + 1 := by
          simpa [jsizeEntries] using hN
        have hfx : jsize e.2 + 1 + jsizeEntries es < g + 1 := by
          simpa [jsizeEntries] using hfuel
        have hjx := jsize_pos e.2
        have hji := jsizeEntries_pos es
        obtain ⟨k, v⟩ := e
        dsimp only at hGx hsize hfx hjx
        cases es with
        | nil =>
          have hv := ih1 v (by omega) hGx.1 g ('\x7d' :: rest) (by omega)
          have hws : parseVal g (' ' :: (dumpVal v ++ '\x7d' :: rest)) =
              parseVal g (dumpVal v ++ '\x7d' :: rest) :=
            parseVal_ws g (by rfl) _
          rw [show dumpEntries [(k, v)] ++ '\x7d' :: rest =
              '"' :: (escapeString k.data ++ '"' ::
                (':' :: ' ' :: (dumpVal v ++ '\x7d' :: rest))) from by
            simp [dumpEntries, dumpStr]]
          have hlen : k.data.length < (escapeString k.data ++ '"' ::
              (':' :: ' ' :: (dumpVal v ++ '\x7d' :: rest))).length + 1 := by
            have := escapeString_length k.data
            simp only [List.length_append, List.length_cons]
            omega
          have hkey := parse_escape k.data
            ((escapeString k.data ++ '"' ::
              (':' :: ' ' :: (dumpVal v ++ '}' :: rest))).length + 1)
            (':' :: ' ' :: (dumpVal v ++ '}' :: rest)) hlen
          simp only [List.length_append, List.length_cons] at hkey
          simp [parseEntries, skipWs, hkey, hws, hv, string_eta]
        | cons f fs =>
          have hv := ih1 v (by omega) hGx.1 g
            (',' :: ' ' :: (dumpEntries (f :: fs) ++ '\x7d' :: rest))
            (by omega)
          have hrest := ih3 (f :: fs) (by simp) (by omega) hGx.2 g rest
            (by omega)
          have hwsv : parseVal g (' ' :: (dumpVal v ++ ',' :: ' ' ::
              (dumpEntries (f :: fs) ++ '\x7d' :: rest))) =
              parseVal g (dumpVal v ++ ',' :: ' ' ::
                (dumpEntries (f :: fs) ++ '\x7d' :: rest)) :=
            parseVal_ws g (by rfl) _
          have hwse : parseEntries g (' ' :: (dumpEntries (f :: fs) ++
              '\x7d' :: rest)) =
              parseEntries g (dumpEntries (f :: fs) ++ '\x7d' :: rest) :=
            parseEntries_ws g (by rfl) _
          rw [show dumpEntries ((k, v) :: f :: fs) ++ '\x7d' :: rest =
              '"' :: (escapeString k.data ++ '"' ::
                (':' :: ' ' :: (dumpVal v ++ ',' :: ' ' ::
                  (dumpEntries (f :: fs) ++ '\x7d' :: rest)))) from by
            simp [dumpEntries, dumpStr]]
          have hlen : k.data.length < (escapeString k.data ++ '"' ::
              (':' :: ' ' :: (dumpVal v ++ ',' :: ' ' ::
                (dumpEntries (f :: fs) ++ '\x7d' :: rest)))).length + 1 := by
            have := escapeString_length k.data
            simp only [List.length_append, List.length_cons]
            omega
          have hkey := parse_escape k.data
            ((escapeString k.data ++ '"' ::
              (':' :: ' ' :: (dumpVal v ++ ',' :: ' ' ::
                (dumpEntries (f :: fs) ++ '}' :: rest)))).length + 1)
            (':' :: ' ' :: (dumpVal v ++ ',' :: ' ' ::
              (dumpEntries (f :: fs) ++ '}' :: rest))) hlen
          simp only [List.length_append, List.length_cons] at hkey
          simp [parseEntries, skipWs, hkey, hwsv, hv, hwse, hrest, string_eta]

/-- The fuel bound `jsize` is dominated by twice the serialized length, so
the fuel `jsonLoads` supplies always suffices on serialized documents. -/
theorem jsize_le_dump : ∀ N : Nat,
    (∀ v : PyVal, jsize v ≤ N → GDocB v = true →
      jsize v ≤ 2 * (dumpVal v).length) ∧
    (∀ xs : List PyVal, jsizeItems xs ≤ N → GDocListB xs = true →
      jsizeItems xs ≤ 2 * (dumpItems xs).length + 2) ∧
    (∀ es : List (String × PyVal), jsizeEntries es ≤ N →
      GDocEntriesB es = true →
      jsizeEntries es ≤ 2 * (dumpEntries es).length + 2) := by
  intro N
  induction N with
  | zero =>
    refine ⟨?_, ?_, ?_⟩
    · intro v hN
      have := jsize_pos v; omega
    · intro xs hN
      have := jsizeItems_pos xs; omega
    · intro es hN
      have := jsizeEntries_pos es; omega
  | succ N ih =>
    obtain ⟨ih1, ih2, ih3⟩ := ih
    refine ⟨?_, ?_, ?_⟩
    · intro v hN hG
      cases v with
      | none => simp [GDocB] at hG
      | bool b => simp [GDocB] at hG
      | int n => simp [GDocB] at hG
      | str s =>
        simp only [jsize, dumpVal, dumpStr, List.length_cons,
          List.length_append]
        omega
      | list xs =>
        have hG' : GDocListB xs = true := by simpa [GDocB] using hG
        have hN' : jsizeItems xs ≤ N := by simp [jsize] at hN; omega
        have := ih2 xs hN' hG'
        simp only [jsize, dumpVal, List.length_cons, List.length_append,
          List.length_singleton]
        omega
      | dict es =>
        have hG' : GDocEntriesB es = true := by
          have h2 := hG
          simp [GDocB, Bool.and_eq_true] at h2
          exact h2.2
        have hN' : jsizeEntries es ≤ N := by simp [jsize] at hN; omega
        have := ih3 es hN' hG'
        simp only [jsize, dumpVal, List.length_cons, List.length_append,
          List.length_singleton]
        omega
    · intro xs hN hG
      cases xs with
      | nil => simp [jsizeItems, dumpItems]
      | cons x xs =>
        have hGx : GDocB x = true ∧ GDocListB xs = true := by
          simpa [GDocListB, Bool.and_eq_true] using hG
        have hsize : jsize x + 1 + jsizeItems xs ≤ N + 1 := by
          simpa [jsizeItems] using hN
        have hjx := jsize_pos x
        have hji := jsizeItems_pos xs
        have hx := ih1 x (by omega) hGx.1
        cases xs with
        | nil =>
          simp only [jsizeItems, dumpItems]
          omega
        | cons y ys =>
          have hys := ih2 (y :: ys) (by omega) hGx.2
          simp only [jsizeItems, dumpItems, List.length_append,
            List.length_cons] at hys ⊢
          omega
    · intro es hN hG
      cases es with
      | nil => simp [jsizeEntries, dumpEntries]
      | cons e es =>
        have hGx : GDocB e.2 = true ∧ GDocEntriesB es = true := by
          simpa [GDocEntriesB, Bool.and_eq_true] using hG
        have hsize : jsize e.2 + 1 + jsizeEntries es ≤ N + 1 := by
          simpa [jsizeEntries] using hN
        have hjx := jsize_pos e.2
        have hji := jsizeEntries_pos es
        have hx := ih1 e.2 (by omega) hGx.1
        obtain ⟨k, v⟩ := e
        dsimp only at hGx hsize hjx hx
        cases es with
        | nil =>
          simp only [jsizeEntries, dumpEntries, dumpStr, List.length_append,
            List.length_cons]
          omega
        | cons f fs =>
          have hfs := ih3 (f :: fs) (by omega) hGx.2
          simp only [jsizeEntries, dumpEntries, dumpStr, List.length_append,
            List.length_cons] at hfs ⊢
          omega

/-- C6: round-trip — for every generic document representable in JSON (a
finite tree of string scalars, lists and string-keyed maps with distinct
keys, `GDocB`), parsing its JSON serialization yields exactly the document:
`json.loads(json.dumps(doc)) = doc`. -/
theorem json_roundtrip (v : PyVal) (h : GDocB v = true) :
    jsonLoads (jsonDumps v) = some v := by
  have hsize : jsize v ≤ 2 * (dumpVal v).length :=
    (jsize_le_dump (jsize v)).1 v le_rfl h
  have hparse := (roundtrip_pack (jsize v)).1 v le_rfl h
    (2 * (dumpVal v).length + 2) [] (by omega)
  rw [List.append_nil] at hparse
  unfold jsonLoads jsonDumps
  rw [show (⟨dumpVal v⟩ : String).data = dumpVal v from rfl, hparse]
  rfl

theorem json_roundtrip_witness :
    GDocB (PyVal.dict [("query", PyVal.dict [("a b", PyVal.list
      [PyVal.str "x\"y\\z", PyVal.str "", PyVal.dict []]),
      ("c", PyVal.str "línea\n\ttab")])]) = true ∧
    jsonLoads (jsonDumps (PyVal.dict [("query", PyVal.dict [("a b",
      PyVal.list [PyVal.str "x\"y\\z", PyVal.str "", PyVal.dict []]),
      ("c", PyVal.str "línea\n\ttab")])])) =
      some (PyVal.dict [("query", PyVal.dict [("a b", PyVal.list
        [PyVal.str "x\"y\\z", PyVal.str "", PyVal.dict []]),
        ("c", PyVal.str "línea\n\ttab")])]) :=
  ⟨by rfl, json_roundtrip _ (by rfl)⟩

/-! ## Claim C3, C5, C9, C10 theorems -/

/-- C3 counterexample: the two normalizations the claim asserts both fail on
the code.  `_parse_response` returns `_xml_to_dict(root)` itself, not a map
keyed by the root tag; and for an element with attributes but no child
elements the `else` branch of line 304 replaces the attribute dict with the
bare text, so the `@x` attribute is lost and no `text` key appears. -/
theorem xml_normalization_counterexample :
    parseResponse "<a x=\"1\">hi</a>" "application/xml" =
      ParseOutcome.ok (PyVal.str "hi") ∧
    ParseOutcome.ok (PyVal.str "hi") ≠
      ParseOutcome.ok (PyVal.dict [("a", PyVal.dict
        [("@x", PyVal.str "1"), ("text", PyVal.str "hi")])]) ∧
    parseResponse "<a><b>1</b><b>2</b></a>" "application/xml" =
      ParseOutcome.ok (PyVal.dict [("b",
        PyVal.list [PyVal.str "1", PyVal.str "2"])]) ∧
    ParseOutcome.ok (PyVal.dict [("b", PyVal.list [PyVal.str "1",
      PyVal.str "2"])]) ≠
      ParseOutcome.ok (PyVal.dict [("a", PyVal.dict [("b",
        PyVal.list [PyVal.str "1", PyVal.str "2"])])]) := by
  refine ⟨rfl, ?_, rfl, ?_⟩ <;> simp

/-- C3 (amended): the XML normalizer returns the root element's own
conversion, without wrapping it under the root tag: `<a><b>1</b><b>2</b></a>`
normalizes to `Map{b: List[Scalar 1, Scalar 2]}` (repeated sibling tags
become a list preserving document order, a single occurrence is not
wrapped); and an element with no child elements yields just its trimmed text
— its attributes are discarded — so `<a x="1">hi</a>` normalizes to
`Scalar hi`. -/
theorem xml_normalization_amended :
    parseResponse "<a><b>1</b><b>2</b></a>" "application/xml" =
      ParseOutcome.ok (PyVal.dict [("b",
        PyVal.list [PyVal.str "1", PyVal.str "2"])]) ∧
    parseResponse "<a x=\"1\">hi</a>" "application/xml" =
      ParseOutcome.ok (PyVal.str "hi") := ⟨rfl, rfl⟩

/-- C5 (the code at the failing input): malformed JSON under the JSON format
does **not** produce the parse-failure `APIError`; evaluating the `except`
clause reads the function-local `etree` (bound only in the XML branch) and
`UnboundLocalError` escapes instead.  Malformed XML under the XML format is
converted to the `APIError` with `codigo 500` as the spec says. -/
theorem parse_response_malformed_behaviour :
    parseResponse "\x7b" "application/json" =
      ParseOutcome.pyError "UnboundLocalError" ∧
    parseResponse "<a>" "application/xml" =
      ParseOutcome.err ⟨500, "Error parseando respuesta de la API",
        some "XMLSyntaxError"⟩ := ⟨rfl, rfl⟩

/-- C9: with no filters `build_search_query` returns the empty-query
sentinel (the payload whose `query_string.query` is the empty string, not an
error); with only a department code and a legal-range code the clause set is
exactly the two AND-combined terms; and the `range` sub-clause is present
exactly when a date bound is supplied, containing only the bounds actually
supplied. -/
theorem build_search_query_clauses :
    (buildQueryParts Option.none Option.none Option.none Option.none
        Option.none = [] ∧
      queryStringOf (buildSearchQueryJson Option.none Option.none Option.none
        Option.none Option.none Option.none Option.none) =
        some (PyVal.str "") ∧
      build_search_query Option.none Option.none Option.none Option.none
        Option.none Option.none Option.none =
        "\x7b\"query\": \x7b\"query_string\": \x7b\"query\": \"\"\x7d\x7d\x7d") ∧
    (buildQueryParts Option.none Option.none (some "7723") (some "1300")
        Option.none = ["departamento@codigo:7723", "rango@codigo:1300"] ∧
      queryStringOf (buildSearchQueryJson Option.none Option.none
        (some "7723") (some "1300") Option.none Option.none Option.none) =
        some (PyVal.str "departamento@codigo:7723 AND rango@codigo:1300")) ∧
    (∀ text title department legal_range matter date_from date_to,
      queryRangeOf (buildSearchQueryJson text title department legal_range
        matter date_from date_to) =
        (if pyTruthy date_from || pyTruthy date_to then
          some (PyVal.dict [("fecha_publicacion", PyVal.dict
            ((if pyTruthy date_from then
              [("gte", PyVal.str (date_from.getD ""))] else []) ++
             (if pyTruthy date_to then
              [("lte", PyVal.str (date_to.getD ""))] else [])))])
        else Option.none)) := by
  refine ⟨⟨rfl, rfl, rfl⟩, ⟨rfl, rfl⟩, ?_⟩
  intro text title department legal_range matter date_from date_to
  by_cases h : (pyTruthy date_from || pyTruthy date_to) = true
  · simp only [buildSearchQueryJson, h, if_true]
    simp [queryRangeOf, pyDictSet, pyDictGet]
  · simp only [Bool.or_eq_true, not_or, Bool.not_eq_true] at h
    simp [buildSearchQueryJson, queryRangeOf, pyDictGet, h.1, h.2]

/-- C10 counterexample: Python's `$` also matches just before a newline at
the end of the string, so `validate_boe_identifier` accepts
`"BOE-S-2024-1\n"`, a string that is not of the plain form
`(BOE|BORME)-S-<4 digits>-<1 to 3 digits>`. -/
theorem validate_boe_identifier_counterexample :
    validate_boe_identifier "BOE-S-2024-1\n" = true ∧
    plainBoePattern "BOE-S-2024-1\n" = false := ⟨rfl, rfl⟩

/-- C10 (amended): `validate_boe_identifier` returns true exactly for
strings of the form `(BOE|BORME)-S-<4 digits>-<1 to 3 digits>` optionally
followed by one trailing newline (the semantics of Python's `$`); in
particular it returns false on every string starting `BOE-A-`, so the
`get_consolidated_law` pre-network validation rejects every identifier of
the documented consolidated-law form `BOE-A-YYYY-NNNNN` (such as
`BOE-A-2015-10566`), while accepting e.g. `BOE-S-2024-15`. -/
theorem validate_boe_identifier_amended :
    (∀ rest : String, getConsolidatedLawAccepts ("BOE-A-" ++ rest) = false) ∧
    validate_boe_identifier "BOE-A-2015-10566" = false ∧
    validate_boe_identifier "BOE-S-2024-15" = true ∧
    (∀ s : String, validate_boe_identifier s = true ↔
      (plainBoePattern s = true ∨
        (s.data.getLast? = some '\n' ∧
          boeCoreMatch s.data.dropLast = true))) := by
  have h1 : ∀ l, boeCoreMatch ('B' :: 'O' :: 'E' :: '-' :: 'A' :: '-' :: l) =
      false := fun l => rfl
  refine ⟨?_, rfl, rfl, ?_⟩
  · intro rest
    have hdata : ("BOE-A-" ++ rest).data =
        'B' :: 'O' :: 'E' :: '-' :: 'A' :: '-' :: rest.data := by
      simp [String.data_append]
    unfold getConsolidatedLawAccepts validate_boe_identifier
    rw [hdata, h1]
    cases hl : rest.data with
    | nil => simp
    | cons c l =>
      simp only [List.dropLast_cons₂, h1, Bool.and_false, Bool.or_false,
        Bool.false_or]
  · intro s
    simp [validate_boe_identifier, plainBoePattern, Bool.or_eq_true,
      Bool.and_eq_true, decide_eq_true_iff]
